import Mathlib

/-!
Shallow embedding of the `sharding` Go package (package `sharding`,
`cluster.go`): a logical-sharding layer mapping many logical shards onto a
few physical PostgreSQL servers, with lookup and fan-out operations.

Modelling conventions:
* a physical server handle (`*pg.DB`) is identified by its pointer identity;
  we model each distinct handle as a natural number, so identity equality is
  `Nat` equality.  For handles produced by `pg.Connect`, the `Options()`
  pointer is in one-to-one correspondence with the handle, so the
  `shard.Options() != db.Options()` tests in the fan-out code are modelled as
  equality of the shard's bound server with the server;
* Go `int`/`int64` become `Int`; Go's `%` is truncation division remainder,
  i.e. `Int.tmod`, and Go's `/` is `Int.tdiv`;
* code that can panic (out-of-range slice indexing, division by zero,
  `make` with a negative length) returns `Option`, with `none` for the panic;
* the concurrent fan-out operations are modelled by the deterministic data
  they produce: the sequence of invocations and the captured error.
-/

/-- A physical database server handle (`*pg.DB` in the source), modelled by
its pointer identity. -/
abbrev Server := Nat

/-- Modelled from the spec: the `IdGen` component lives in the repository's
second source file, which is absent from `src/`; only its interface surface
is needed here.  It carries a fixed `epoch` and its `NumShards()` method
returns the maximum shard count representable by the shard field of the id
layout, a fixed power of two — 2048, per the spec ("e.g. 2048") and the
`Cluster` doc comment in the source ("up to 2048").  The concrete epoch
value is irrelevant to every claim (it is only threaded into the shard
parameters), so the default instance uses `0`. -/
structure IdGen where
  numShards : Nat
  epoch : Int
deriving DecidableEq

/-- Modelled from the spec: the package-level default `IdGen` instance
(`DefaultIdGen` in the source), with the fixed 2048-shard layout. -/
def DefaultIdGen : IdGen := { numShards := 2048, epoch := 0 }

/-- A logical shard handle.  In the source a shard is itself a `*pg.DB`
value, produced by `Cluster.newShard` from its bound server `db` by
attaching the parameters `shard_id`, `shard` (the name `"shard<id>"`) and
`epoch`.  We record the bound server's identity and those parameters. -/
structure ShardDB where
  server : Server
  shardId : Int
  name : String
  epoch : Int
deriving DecidableEq

/-- `Cluster.newShard`: derive the logical shard handle with id `id` from
the physical server `db`, attaching the shard parameters. -/
def newShard (gen : IdGen) (db : Server) (id : Int) : ShardDB :=
  { server := db, shardId := id, name := "shard" ++ toString id, epoch := gen.epoch }

/-- One step of the deduplication loop in `Cluster.init`: append `db` to the
accumulated distinct-server list unless it is already present (the
`dbSet` membership test; membership is pointer identity). -/
def addDistinct (acc : List Server) (db : Server) : List Server :=
  if db ∈ acc then acc else acc ++ [db]

/-- The first loop of `Cluster.init`: collapse the placement list `dbs` into
the list of distinct servers, keeping first occurrences in order. -/
def dedupServers (dbs : List Server) : List Server :=
  dbs.foldl addDistinct []

/-- The second loop of `Cluster.init`: `cl.shards[i] = cl.newShard(cl.dbs[i%len(cl.dbs)], int64(i))`
for `i` in `[0, nshards)`.  The index `i % dbs.length` is strictly below
`dbs.length` whenever `dbs` is nonempty (guaranteed by construction), so the
`getD` default is never used. -/
def initShards (gen : IdGen) (dbs : List Server) (nshards : Nat) : List ShardDB :=
  (List.range nshards).map fun i => newShard gen (dbs.getD (i % dbs.length) 0) (Int.ofNat i)

/-- The cluster topology: the validating id generator, the deduplicated
distinct-server list `servers`, the placement list `dbs`, and the logical
shard handles `shards`. -/
structure Cluster where
  gen : IdGen
  servers : List Server
  dbs : List Server
  shards : List ShardDB
deriving DecidableEq

/-- `NewClusterWithGen(dbs, nshards, gen)`: validates the topology
invariants (each `panic` is modelled as `none`) and builds the cluster via
`init`.  A `nil` generator (`gen0 = none`) defaults to `DefaultIdGen`. -/
def NewClusterWithGen (dbs : List Server) (nshards : Int) (gen0 : Option IdGen) :
    Option Cluster :=
  if dbs.length = 0 then none
  else if nshards = 0 then none
  else if (dbs.length : Int) > ((gen0.getD DefaultIdGen).numShards : Int) ∨
      nshards > ((gen0.getD DefaultIdGen).numShards : Int) then none
  else if nshards < (dbs.length : Int) then none
  else if nshards.tmod (dbs.length : Int) ≠ 0 then none
  else some { gen := gen0.getD DefaultIdGen, servers := dedupServers dbs, dbs := dbs,
              shards := initShards (gen0.getD DefaultIdGen) dbs nshards.toNat }

/-- `NewCluster(dbs, nshards)`: construction with the default generator. -/
def NewCluster (dbs : List Server) (nshards : Int) : Option Cluster :=
  NewClusterWithGen dbs nshards none

/-- Go slice indexing `l[i]` with a signed index: panics (modelled as
`none`) unless `0 ≤ i < len(l)`. -/
def goIndex {α : Type} (l : List α) (i : Int) : Option α :=
  if 0 ≤ i then l.get? i.toNat else none

/-- `Cluster.DB(number)`: `number %= len(cl.shards); number %= len(cl.dbs);
return cl.dbs[number]`, with Go's truncation remainder. -/
def Cluster.DB (cl : Cluster) (number : Int) : Option Server :=
  goIndex cl.dbs ((number.tmod (cl.shards.length : Int)).tmod (cl.dbs.length : Int))

/-- `Cluster.Shard(number)`: `number %= len(cl.shards); return cl.shards[number]`,
with Go's truncation remainder. -/
def Cluster.Shard (cl : Cluster) (number : Int) : Option ShardDB :=
  goIndex cl.shards (number.tmod (cl.shards.length : Int))

/-- A sub-cluster: the parent cluster and the contiguous shard window. -/
structure SubCluster where
  cl : Cluster
  shards : List ShardDB
deriving DecidableEq

/-- The clamp at the top of `Cluster.SubCluster`:
`if size > len(cl.shards) { size = len(cl.shards) }`. -/
def clampSize (cl : Cluster) (size : Int) : Int :=
  if size > (cl.shards.length : Int) then (cl.shards.length : Int) else size

/-- `step := len(cl.shards) / size` (Go truncation division) after the
clamp. -/
def subStep (cl : Cluster) (size : Int) : Int :=
  (cl.shards.length : Int).tdiv (clampSize cl size)

/-- `clusterId := int(number % int64(step)) * size` after the clamp. -/
def subOffset (cl : Cluster) (number : Int) (size : Int) : Int :=
  (number.tmod (subStep cl size)) * clampSize cl size

/-- The window-building loop of `Cluster.SubCluster`:
`for i := 0; i < size; i++ { shards[i] = cl.shards[clusterId+i] }`, gathering
`l[start], l[start+1], ..., l[start+k-1]`; `none` models the slice-index
panic on the first out-of-range access. -/
def gatherShards (l : List ShardDB) (start : Int) : Nat → Option (List ShardDB)
  | 0 => some []
  | k+1 =>
    match goIndex l start, gatherShards l (start + 1) k with
    | some sh, some rest => some (sh :: rest)
    | _, _ => none

/-- `Cluster.SubCluster(number, size)`.  The source performs no validation of
`size`: after the clamp, `size = 0` reaches `len(cl.shards) / size` and
panics with a division by zero, and a negative `size` reaches
`make([]*pg.DB, size)` (or, when `step` truncates to zero, `number % 0`) and
panics as well; both panics are modelled by the `size2 ≤ 0` branch returning
`none`.  Renamed from the source's `SubCluster` because the method name
collides with the `SubCluster` type in Lean. -/
def Cluster.SubClusterOp (cl : Cluster) (number : Int) (size : Int) : Option SubCluster :=
  let size2 := clampSize cl size
  if size2 ≤ 0 then none
  else
    (gatherShards cl.shards (subOffset cl number size) size2.toNat).map
      fun ws => { cl := cl, shards := ws }

/-- The sequence of servers on which `Cluster.ForEachDB` invokes `fn`: the
loop launches one goroutine per element of `cl.servers`, each invoking `fn`
exactly once on its server.  Launch order is the order of `cl.servers`;
completion order is nondeterministic, which affects only which single error
is returned, never the set of invocations. -/
def Cluster.forEachDBCalls (cl : Cluster) : List Server :=
  cl.servers

/-- Inner loop of `Cluster.ForEachShard` for one server `db`, instrumented
with the invocation sequence: iterate the shard list in order, skip shards
whose `Options()` (bound server) differ from `db`, invoke `fn`, and record
the first non-nil error in the accumulator `firstErr`
(`if err := fn(shard); err != nil && firstErr == nil { firstErr = err }`).
Returns the list of shards on which `fn` was invoked, in loop order, with
the final `firstErr`. -/
def fesLoop {ε : Type} (fn : ShardDB → Option ε) (db : Server) :
    List ShardDB → Option ε → List ShardDB × Option ε
  | [], firstErr => ([], firstErr)
  | shard :: rest, firstErr =>
    if shard.server = db then
      let firstErr2 :=
        match fn shard, firstErr with
        | some e, none => some e
        | _, _ => firstErr
      let r := fesLoop fn db rest firstErr2
      (shard :: r.1, r.2)
    else fesLoop fn db rest firstErr

/-- The per-server body that `Cluster.ForEachShard` passes to
`Cluster.ForEachDB`: the invocation sequence and the captured first error
for server `db`. -/
def Cluster.forEachShardBody {ε : Type} (cl : Cluster) (fn : ShardDB → Option ε)
    (db : Server) : List ShardDB × Option ε :=
  fesLoop fn db cl.shards none

/-- The invocation sequence of `Cluster.ForEachShard`'s inner loop for one
server: exactly the shards bound to `db`, in shard-list order (the loop
skips every other shard). -/
def Cluster.forEachShardCalls (cl : Cluster) (db : Server) : List ShardDB :=
  cl.shards.filter fun shard => shard.server == db

/-- A non-blocking send on a Go channel with buffer capacity `cap`
(`select { case ch <- e: default: }`): the value is kept only if the buffer
has room, otherwise it is dropped. -/
def chanSend {ε : Type} (cap : Nat) (ch : List ε) (e : ε) : List ε :=
  if ch.length < cap then ch ++ [e] else ch

/-- Inner loop of `Cluster.ForEachNShards` for one server `db`, at `n = 1`,
instrumented with the invocation sequence.  With `n = 1` the semaphore
channel `limit` has capacity 1, so the blocking send `limit <- struct{}{}`
for the next matching shard can only proceed after the previous goroutine's
deferred `<-limit`, which runs after its `fn` call and its error send have
finished: the goroutines execute sequentially in loop order, and every
error send is ordered before the next invocation.  The loop therefore
reduces to: for each shard bound to `db`, in shard-list order, run `fn` and
offer any error to the capacity-1 buffer `errCh`. -/
def fensOneLoop {ε : Type} (fn : ShardDB → Option ε) (db : Server) :
    List ShardDB → List ε → List ShardDB × List ε
  | [], errCh => ([], errCh)
  | shard :: rest, errCh =>
    if shard.server = db then
      let errCh2 :=
        match fn shard with
        | some e => chanSend 1 errCh e
        | none => errCh
      let r := fensOneLoop fn db rest errCh2
      (shard :: r.1, r.2)
    else fensOneLoop fn db rest errCh

/-- The per-server body that `Cluster.ForEachNShards` passes to
`Cluster.ForEachDB`, at `n = 1`: after `wg.Wait()`, the
`select { case err := <-errCh: return err; default: return nil }` yields the
single buffered error, if any — the head of the channel's content. -/
def Cluster.forEachNShardsOneBody {ε : Type} (cl : Cluster) (fn : ShardDB → Option ε)
    (db : Server) : List ShardDB × Option ε :=
  let r := fensOneLoop fn db cl.shards []
  (r.1, r.2.head?)

/-- `Cluster.Close`, instrumented with the sequence of servers closed:
iterate `cl.servers`, close each (`closeFn` gives each server's close
result), record the first non-nil error in `retErr`
(`if err := db.Close(); err != nil && retErr == nil { retErr = err }`), and
never break out of the loop. -/
def closeLoop {ε : Type} (closeFn : Server → Option ε) :
    List Server → Option ε → List Server × Option ε
  | [], retErr => ([], retErr)
  | db :: rest, retErr =>
    let retErr2 :=
      match closeFn db, retErr with
      | some e, none => some e
      | _, _ => retErr
    let r := closeLoop closeFn rest retErr2
    (db :: r.1, r.2)

/-- `Cluster.Close`: the sequence of servers on which `Close` is called, in
order, and the returned error. -/
def Cluster.CloseRun {ε : Type} (cl : Cluster) (closeFn : Server → Option ε) :
    List Server × Option ε :=
  closeLoop closeFn cl.servers none

/-- The placement list `[A, B]` of the spec's concrete scenario: two
distinct servers, `A = 0` and `B = 1`. -/
def exDbs : List Server := [0, 1]

/-- The 4-shard, 2-server cluster of the spec's concrete scenario. -/
def exCluster : Cluster :=
  { gen := DefaultIdGen, servers := dedupServers exDbs, dbs := exDbs,
    shards := initShards DefaultIdGen exDbs 4 }

/-- A placement list with duplicate handles, `[A, A, B, B]`. -/
def exDupDbs : List Server := [0, 0, 1, 1]

/-- The 4-shard cluster built over the duplicate placement list
`[A, A, B, B]`. -/
def exDupCluster : Cluster :=
  { gen := DefaultIdGen, servers := dedupServers exDupDbs, dbs := exDupDbs,
    shards := initShards DefaultIdGen exDupDbs 4 }

/-- A concrete fan-out operation for witnesses: fails (with error code 7) on
shard 0 and succeeds on every other shard. -/
def exShardFn : ShardDB → Option Nat :=
  fun sh => if sh.shardId = 0 then some 7 else none

/-- A concrete close operation for witnesses: every server's `Close` fails,
server `A = 0` with error code 10 and every other with code 20. -/
def exCloseFn : Server → Option Nat :=
  fun s => if s = 0 then some 10 else some 20

/-! ### Arithmetic facts about Go's truncation remainder -/

/-- Negating the dividend negates Go's `%` remainder (for a natural
divisor). -/
theorem neg_ofNat_tmod (k d : Nat) :
    (-(Int.ofNat k)).tmod (Int.ofNat d) = -Int.ofNat (k % d) := by
  cases k with
  | zero => simp
  | succ k => rfl

/-- The double remainder collapses when the inner modulus is a multiple of
the outer one: `(a % s) % d = a % d` for Go's truncation remainder. -/
theorem tmod_tmod_of_nat_dvd (a : Int) (s d : Nat) (h : d ∣ s) :
    (a.tmod (s : Int)).tmod (d : Int) = a.tmod (d : Int) := by
  cases a with
  | ofNat m =>
    show (Int.ofNat (m % s)).tmod (Int.ofNat d) = (Int.ofNat m).tmod (Int.ofNat d)
    show Int.ofNat (m % s % d) = Int.ofNat (m % d)
    rw [Nat.mod_mod_of_dvd m h]
  | negSucc m =>
    show (-Int.ofNat ((m + 1) % s)).tmod (Int.ofNat d) = -Int.ofNat ((m + 1) % d)
    rw [neg_ofNat_tmod, Nat.mod_mod_of_dvd (m + 1) h]

/-! ### Facts about the construction -/

theorem length_initShards (gen : IdGen) (dbs : List Server) (n : Nat) :
    (initShards gen dbs n).length = n := by
  simp [initShards]

theorem initShards_get? (gen : IdGen) (dbs : List Server) (n i : Nat) (hi : i < n) :
    (initShards gen dbs n).get? i =
      some (newShard gen (dbs.getD (i % dbs.length) 0) (Int.ofNat i)) := by
  simp [initShards, List.get?_eq_getElem?, List.getElem?_map, List.getElem?_range hi]

/-- Inversion of a successful construction: the shape of the resulting
cluster and the validated invariants. -/
theorem NewClusterWithGen_some {dbs : List Server} {nshards : Int} {gen0 : Option IdGen}
    {cl : Cluster} (h : NewClusterWithGen dbs nshards gen0 = some cl) :
    cl.gen = gen0.getD DefaultIdGen ∧ cl.servers = dedupServers dbs ∧ cl.dbs = dbs ∧
      cl.shards = initShards (gen0.getD DefaultIdGen) dbs nshards.toNat ∧
      0 < dbs.length ∧ (dbs.length : Int) ≤ nshards ∧
      nshards.tmod (dbs.length : Int) = 0 := by
  unfold NewClusterWithGen at h
  split_ifs at h with h1 h2 h3 h4 h5
  · cases h
    exact ⟨rfl, rfl, rfl, rfl, Nat.pos_of_ne_zero h1, not_lt.mp h4, not_not.mp h5⟩

/-- The shard count of a constructed cluster is positive and equals
`nshards`. -/
theorem NewClusterWithGen_shards_length {dbs : List Server} {nshards : Int}
    {gen0 : Option IdGen} {cl : Cluster} (h : NewClusterWithGen dbs nshards gen0 = some cl) :
    cl.shards.length = nshards.toNat ∧ 0 < cl.shards.length ∧
      (cl.shards.length : Int) = nshards := by
  obtain ⟨-, -, -, hsh, hpos, hle, -⟩ := NewClusterWithGen_some h
  have hn : 0 < nshards := lt_of_lt_of_le (by exact_mod_cast hpos) hle
  have hlen : cl.shards.length = nshards.toNat := by rw [hsh, length_initShards]
  refine ⟨hlen, ?_, ?_⟩
  · rw [hlen]; omega
  · rw [hlen]; exact Int.toNat_of_nonneg (le_of_lt hn)

/-- The placement-list length of a constructed cluster divides its shard
count. -/
theorem NewClusterWithGen_dvd {dbs : List Server} {nshards : Int}
    {gen0 : Option IdGen} {cl : Cluster} (h : NewClusterWithGen dbs nshards gen0 = some cl) :
    cl.dbs.length ∣ cl.shards.length := by
  obtain ⟨-, -, hdbs, -, hpos, hle, hmod⟩ := NewClusterWithGen_some h
  obtain ⟨hlen, -, hcast⟩ := NewClusterWithGen_shards_length h
  have hdvd : (dbs.length : Int) ∣ nshards := Int.dvd_of_tmod_eq_zero hmod
  rw [hdbs, ← Int.natCast_dvd_natCast, hcast]
  exact hdvd

/-! ### Claim C1: shard-to-server binding of a valid construction -/

/-- C1: for every valid construction (at least one server, shard count
nonzero and at least the server count, evenly divisible by it, both counts
within the id generator's maximum), `NewClusterWithGen` succeeds and shard
`i` is bound to `placementList[i % len(placementList)]` for every
`i` in `[0, shardCount)`. -/
theorem claim_C1_binding (dbs : List Server) (nshards : Int) (gen0 : Option IdGen)
    (h1 : dbs.length ≠ 0) (h2 : nshards ≠ 0)
    (h3 : (dbs.length : Int) ≤ ((gen0.getD DefaultIdGen).numShards : Int))
    (h4 : nshards ≤ ((gen0.getD DefaultIdGen).numShards : Int))
    (h5 : (dbs.length : Int) ≤ nshards)
    (h6 : nshards.tmod (dbs.length : Int) = 0) :
    ∃ cl : Cluster, NewClusterWithGen dbs nshards gen0 = some cl ∧
      cl.shards.length = nshards.toNat ∧
      ∀ i : Nat, i < nshards.toNat →
        (cl.shards.get? i).map ShardDB.server = dbs.get? (i % dbs.length) := by
  refine ⟨{ gen := gen0.getD DefaultIdGen, servers := dedupServers dbs, dbs := dbs,
            shards := initShards (gen0.getD DefaultIdGen) dbs nshards.toNat }, ?_, ?_, ?_⟩
  · unfold NewClusterWithGen
    rw [if_neg h1, if_neg h2, if_neg ?_, if_neg (not_lt.mpr h5), if_neg (not_not.mpr h6)]
    rw [not_or]
    exact ⟨not_lt.mpr h3, not_lt.mpr h4⟩
  · exact length_initShards _ _ _
  · intro i hi
    have hlt : i % dbs.length < dbs.length := Nat.mod_lt _ (Nat.pos_of_ne_zero h1)
    rw [initShards_get? _ _ _ _ hi, List.getD_eq_get?, List.get?_eq_get hlt]
    rfl

/-- Witness for C1 at the spec's concrete scenario: servers `[A, B]` and
4 shards; the construction succeeds and binds shards `[0, 1, 2, 3]` to
`[A, B, A, B]`. -/
theorem claim_C1_binding_witness :
    (exDbs.length ≠ 0 ∧ (4 : Int) ≠ 0 ∧
      (exDbs.length : Int) ≤ (((none : Option IdGen).getD DefaultIdGen).numShards : Int) ∧
      (4 : Int) ≤ (((none : Option IdGen).getD DefaultIdGen).numShards : Int) ∧
      (exDbs.length : Int) ≤ 4 ∧ (4 : Int).tmod (exDbs.length : Int) = 0) ∧
    (∃ cl : Cluster, NewClusterWithGen exDbs 4 none = some cl ∧
      cl.shards.length = (4 : Int).toNat ∧
      ∀ i : Nat, i < (4 : Int).toNat →
        (cl.shards.get? i).map ShardDB.server = exDbs.get? (i % exDbs.length)) ∧
    exCluster.shards.map ShardDB.server = [0, 1, 0, 1] :=
  ⟨⟨by decide, by decide, by decide, by decide, by decide, by decide⟩,
    claim_C1_binding exDbs 4 none (by decide) (by decide) (by decide) (by decide)
      (by decide) (by decide),
    by decide⟩

/-! ### Claim C2: construction fails exactly on invariant violations -/

/-- C2: `NewClusterWithGen` fails (the source panics; modelled as `none`)
exactly when some invariant is violated: empty server list, zero shard
count, shard count below the server count, shard count not a multiple of
the server count, or either count exceeding the id generator's maximum
shard count.  Otherwise construction succeeds. -/
theorem claim_C2_validation (dbs : List Server) (nshards : Int) (gen0 : Option IdGen) :
    NewClusterWithGen dbs nshards gen0 = none ↔
      dbs.length = 0 ∨ nshards = 0 ∨
      (dbs.length : Int) > ((gen0.getD DefaultIdGen).numShards : Int) ∨
      nshards > ((gen0.getD DefaultIdGen).numShards : Int) ∨
      nshards < (dbs.length : Int) ∨
      nshards.tmod (dbs.length : Int) ≠ 0 := by
  unfold NewClusterWithGen
  split_ifs with h1 h2 h3 h4 h5 <;> simp_all <;> tauto

/-! ### Claim C3: Shard lookup and negative numbers -/

/-- The truncation remainder of a negative dividend by a natural divisor is
never positive (its sign follows the dividend). -/
theorem tmod_nonpos_of_neg (a : Int) (L : Nat) (ha : a < 0) : a.tmod (L : Int) ≤ 0 := by
  cases a with
  | ofNat m => exact absurd ha (Int.not_lt.mpr (Int.ofNat_nonneg m))
  | negSucc m =>
    show -Int.ofNat ((m + 1) % L) ≤ 0
    exact neg_nonpos_of_nonneg (Int.ofNat_nonneg _)

/-- The construction of the spec's concrete 4-shard, 2-server cluster
evaluates to `exCluster`. -/
theorem exCluster_eq : NewClusterWithGen exDbs 4 none = some exCluster := by decide

/-- The construction over the duplicate placement list `[A, A, B, B]`
evaluates to `exDupCluster`. -/
theorem exDupCluster_eq : NewClusterWithGen exDupDbs 4 none = some exDupCluster := by decide

/-- C3 (counterexample): on the constructed 2-server, 4-shard cluster,
`Shard(-1)` does not return a shard — the remainder `-1 % 4 = -1` is
negative and the slice access panics (`none`), contradicting the claim that
the call succeeds on every negative number with a normalized non-negative
remainder. -/
theorem claim_C3_counterexample :
    (NewClusterWithGen exDbs 4 none).map (fun cl => cl.Shard (-1)) = some none := by
  decide

/-- C3 (amended): for every constructed cluster, `Shard(number)` indexes
`shards` at Go's truncation remainder `number % shardCount`, whose sign
follows `number`.  For non-negative `number` (and for the negative multiples
of `shardCount`, where the remainder is zero) the lookup succeeds and
returns `shards[number % shardCount]`; for negative `number` not a multiple
of `shardCount` the remainder is negative and the access panics (`none`)
instead of being normalized. -/
theorem claim_C3_shard_lookup {dbs : List Server} {nshards : Int} {gen0 : Option IdGen}
    {cl : Cluster} (h : NewClusterWithGen dbs nshards gen0 = some cl) :
    (∀ number : Int, 0 ≤ number →
        cl.Shard number = cl.shards.get? (number.tmod (cl.shards.length : Int)).toNat ∧
        (cl.Shard number).isSome) ∧
    (∀ number : Int, number.tmod (cl.shards.length : Int) = 0 →
        cl.Shard number = cl.shards.get? 0) ∧
    (∀ number : Int, number < 0 → number.tmod (cl.shards.length : Int) ≠ 0 →
        cl.Shard number = none) := by
  obtain ⟨-, hpos, -⟩ := NewClusterWithGen_shards_length h
  have hL : (0 : Int) < (cl.shards.length : Int) := by exact_mod_cast hpos
  refine ⟨?_, ?_, ?_⟩
  · intro number hnum
    have h0 : 0 ≤ number.tmod (cl.shards.length : Int) := Int.tmod_nonneg _ hnum
    have hlt : number.tmod (cl.shards.length : Int) < (cl.shards.length : Int) :=
      Int.tmod_lt_of_pos number hL
    have hlt2 : (number.tmod (cl.shards.length : Int)).toNat < cl.shards.length := by omega
    constructor
    · unfold Cluster.Shard goIndex
      rw [if_pos h0]
    · unfold Cluster.Shard goIndex
      rw [if_pos h0, List.get?_eq_get hlt2]
      rfl
  · intro number hz
    unfold Cluster.Shard goIndex
    rw [hz]
    rfl
  · intro number hneg hnz
    have hle : number.tmod (cl.shards.length : Int) ≤ 0 := tmod_nonpos_of_neg number _ hneg
    unfold Cluster.Shard goIndex
    rw [if_neg (by omega)]

/-- Witness for C3 (amended) at the concrete cluster: the hypothesis holds
for `exCluster`, and `Shard(6)` succeeds, returning `shards[6 % 4]` —
which is shard 2, bound to server `A`. -/
theorem claim_C3_shard_lookup_witness :
    NewClusterWithGen exDbs 4 none = some exCluster ∧
    (exCluster.Shard 6 =
        exCluster.shards.get? ((6 : Int).tmod (exCluster.shards.length : Int)).toNat ∧
      (exCluster.Shard 6).isSome) ∧
    exCluster.Shard 6 = exCluster.Shard 2 :=
  ⟨exCluster_eq, (claim_C3_shard_lookup exCluster_eq).1 6 (by decide), by decide⟩

/-! ### Claim C4: the double modulus of DB collapses to a single modulus -/

/-- C4: for every constructed cluster (whose shard count is a multiple of
the placement-list length) and every number, the double-modulus resolution
`placementList[number % shardCount % len(placementList)]` computed by `DB`
equals the single-modulus form `placementList[number % len(placementList)]`
— including on the inputs where both sides panic. -/
theorem claim_C4_db_single_mod {dbs : List Server} {nshards : Int} {gen0 : Option IdGen}
    {cl : Cluster} (h : NewClusterWithGen dbs nshards gen0 = some cl) (number : Int) :
    cl.DB number = goIndex cl.dbs (number.tmod (cl.dbs.length : Int)) := by
  unfold Cluster.DB
  rw [tmod_tmod_of_nat_dvd number _ _ (NewClusterWithGen_dvd h)]

/-- Witness for C4 at the concrete cluster and `number = 5`: the double and
the single modulus agree, and both resolve to server `B`, as in the spec's
scenario `DB(5) == DB(1) == B`. -/
theorem claim_C4_db_single_mod_witness :
    NewClusterWithGen exDbs 4 none = some exCluster ∧
    exCluster.DB 5 = goIndex exCluster.dbs ((5 : Int).tmod (exCluster.dbs.length : Int)) ∧
    exCluster.DB 5 = some 1 ∧ exCluster.DB 1 = some 1 :=
  ⟨exCluster_eq, claim_C4_db_single_mod exCluster_eq 5, by decide, by decide⟩

/-! ### Claims C5 and C10: the SubCluster window -/

/-- Truncation division of natural casts is natural division. -/
theorem ofNat_tdiv_ofNat (m n : Nat) : (Int.ofNat m).tdiv (Int.ofNat n) = Int.ofNat (m / n) :=
  rfl

/-- The window-building loop succeeds when the whole window is in range,
and gathers exactly the contiguous segment starting at `base`. -/
theorem gatherShards_some (l : List ShardDB) (base k : Nat) (hb : base + k ≤ l.length) :
    ∃ ws : List ShardDB, gatherShards l (base : Int) k = some ws ∧ ws.length = k ∧
      ∀ i : Nat, i < k → ws.get? i = l.get? (base + i) := by
  induction k generalizing base with
  | zero => exact ⟨[], rfl, rfl, fun i hi => absurd hi (Nat.not_lt_zero i)⟩
  | succ k ih =>
    have hbase : base < l.length := by omega
    obtain ⟨ws, hws, hlen, hget⟩ := ih (base + 1) (by omega)
    have hidx : goIndex l (base : Int) = some (l.get ⟨base, hbase⟩) := by
      unfold goIndex
      rw [if_pos (Int.ofNat_nonneg base)]
      have : ((base : Int)).toNat = base := rfl
      rw [this, List.get?_eq_get hbase]
    refine ⟨l.get ⟨base, hbase⟩ :: ws, ?_, by simp [hlen], ?_⟩
    · unfold gatherShards
      have hcast : ((base : Int) + 1) = (((base + 1 : Nat)) : Int) := by push_cast; ring
      rw [hidx, hcast, hws]
    · intro i hi
      cases i with
      | zero =>
        show some (l.get ⟨base, hbase⟩) = l.get? (base + 0)
        rw [Nat.add_zero, List.get?_eq_get hbase]
      | succ i =>
        show ws.get? i = l.get? (base + (i + 1))
        rw [hget i (by omega)]
        congr 1
        omega

/-- The clamp leaves `size` between 1 and the shard count whenever
`1 ≤ size` and the cluster has at least one shard. -/
theorem clampSize_bounds (cl : Cluster) (size : Int) (hpos : 0 < cl.shards.length)
    (hsz : 1 ≤ size) :
    1 ≤ clampSize cl size ∧ clampSize cl size ≤ (cl.shards.length : Int) := by
  unfold clampSize
  split_ifs with hgt
  · exact ⟨by exact_mod_cast hpos, le_refl _⟩
  · exact ⟨hsz, not_lt.mp hgt⟩

/-- `Cluster.SubCluster` succeeds under the unchecked preconditions
`0 ≤ number` and `1 ≤ size`, and its window is the contiguous segment
`shards[offset : offset+size]` with `offset = (number % step) * size` after
the clamp. -/
theorem SubClusterOp_window {dbs : List Server} {nshards : Int} {gen0 : Option IdGen}
    {cl : Cluster} (h : NewClusterWithGen dbs nshards gen0 = some cl)
    (number size : Int) (hnum : 0 ≤ number) (hsz : 1 ≤ size) :
    ∃ sc : SubCluster, cl.SubClusterOp number size = some sc ∧ sc.cl = cl ∧
      sc.shards.length = (clampSize cl size).toNat ∧
      ∀ i : Nat, i < (clampSize cl size).toNat →
        sc.shards.get? i = cl.shards.get? ((subOffset cl number size).toNat + i) := by
  obtain ⟨-, hpos, -⟩ := NewClusterWithGen_shards_length h
  obtain ⟨hsz1, hszL⟩ := clampSize_bounds cl size hpos hsz
  have hS : clampSize cl size = ((clampSize cl size).toNat : Int) :=
    (Int.toNat_of_nonneg (le_trans zero_le_one hsz1)).symm
  have hSpos : 0 < (clampSize cl size).toNat := by omega
  have hSle : (clampSize cl size).toNat ≤ cl.shards.length := by omega
  have hstep : subStep cl size =
      ((cl.shards.length / (clampSize cl size).toNat : Nat) : Int) := by
    unfold subStep
    rw [hS]
    exact ofNat_tdiv_ofNat _ _
  have hstep_pos : (0 : Int) < subStep cl size := by
    rw [hstep]
    exact_mod_cast Nat.div_pos hSle hSpos
  have hr0 : 0 ≤ number.tmod (subStep cl size) := Int.tmod_nonneg _ hnum
  have hrlt : number.tmod (subStep cl size) < subStep cl size :=
    Int.tmod_lt_of_pos number hstep_pos
  have hoff0 : 0 ≤ subOffset cl number size := by
    unfold subOffset
    exact mul_nonneg hr0 (le_trans zero_le_one hsz1)
  -- the window fits: offset + size ≤ shardCount
  have hfit : (subOffset cl number size).toNat + (clampSize cl size).toNat ≤
      cl.shards.length := by
    have hrn : (number.tmod (subStep cl size)).toNat + 1 ≤
        cl.shards.length / (clampSize cl size).toNat := by
      have := hrlt
      rw [hstep] at this
      omega
    have hmul : ((number.tmod (subStep cl size)).toNat + 1) * (clampSize cl size).toNat ≤
        (cl.shards.length / (clampSize cl size).toNat) * (clampSize cl size).toNat :=
      Nat.mul_le_mul_right _ hrn
    have hdivmul : (cl.shards.length / (clampSize cl size).toNat) *
        (clampSize cl size).toNat ≤ cl.shards.length := Nat.div_mul_le_self _ _
    have hoffn : (subOffset cl number size).toNat =
        (number.tmod (subStep cl size)).toNat * (clampSize cl size).toNat := by
      obtain ⟨m, hm⟩ := Int.eq_ofNat_of_zero_le hr0
      obtain ⟨n, hn⟩ := Int.eq_ofNat_of_zero_le (le_trans zero_le_one hsz1)
      unfold subOffset
      rw [hm, hn]
      rfl
    calc (subOffset cl number size).toNat + (clampSize cl size).toNat
        = ((number.tmod (subStep cl size)).toNat + 1) * (clampSize cl size).toNat := by
          rw [hoffn]; ring
      _ ≤ (cl.shards.length / (clampSize cl size).toNat) * (clampSize cl size).toNat := hmul
      _ ≤ cl.shards.length := hdivmul
  obtain ⟨ws, hws, hwlen, hwget⟩ :=
    gatherShards_some cl.shards (subOffset cl number size).toNat (clampSize cl size).toNat hfit
  refine ⟨{ cl := cl, shards := ws }, ?_, rfl, hwlen, hwget⟩
  unfold Cluster.SubClusterOp
  rw [if_neg (by omega), ← Int.toNat_of_nonneg hoff0, hws]
  rfl

/-- C5: for every constructed cluster, `SubCluster(number, size)` (under the
unchecked preconditions `0 ≤ number`, `1 ≤ size` — see C10) first clamps
`size` to the shard count, computes `step = shardCount / size` and
`offset = (number % step) * size`, and returns the contiguous window
`shards[offset : offset+size]`. -/
theorem claim_C5_subcluster_window {dbs : List Server} {nshards : Int} {gen0 : Option IdGen}
    {cl : Cluster} (h : NewClusterWithGen dbs nshards gen0 = some cl)
    (number size : Int) (hnum : 0 ≤ number) (hsz : 1 ≤ size) :
    ∃ sc : SubCluster, cl.SubClusterOp number size = some sc ∧ sc.cl = cl ∧
      sc.shards.length = (clampSize cl size).toNat ∧
      ∀ i : Nat, i < (clampSize cl size).toNat →
        sc.shards.get? i = cl.shards.get? ((subOffset cl number size).toNat + i) :=
  SubClusterOp_window h number size hnum hsz

/-- Witness for C5 at the spec's concrete scenario: on the 4-shard cluster,
`SubCluster(1, 2)` has `step = 2` and `offset = (1 % 2) * 2 = 2`, and the
window consists of shards 2 and 3. -/
theorem claim_C5_subcluster_window_witness :
    NewClusterWithGen exDbs 4 none = some exCluster ∧
    (∃ sc : SubCluster, exCluster.SubClusterOp 1 2 = some sc ∧ sc.cl = exCluster ∧
      sc.shards.length = (clampSize exCluster 2).toNat ∧
      ∀ i : Nat, i < (clampSize exCluster 2).toNat →
        sc.shards.get? i = exCluster.shards.get? ((subOffset exCluster 1 2).toNat + i)) ∧
    subStep exCluster 2 = 2 ∧ subOffset exCluster 1 2 = 2 ∧
    (exCluster.SubClusterOp 1 2).map (fun sc => sc.shards.map ShardDB.shardId) =
      some [2, 3] :=
  ⟨exCluster_eq, claim_C5_subcluster_window exCluster_eq 1 2 (by decide) (by decide),
    by decide, by decide, by decide⟩

/-- C10: `Cluster.SubCluster` performs no validation of its `size`
argument.  For every constructed cluster and every `number`, a
non-positive `size` is passed straight through the clamp and the call
panics — `size = 0` reaches the division `shardCount / size` (division by
zero), a negative `size` the negative-length `make` — modelled as `none`;
the guarded window behaviour (see C5) holds only under the unchecked
precondition `size ≥ 1`. -/
theorem claim_C10_size_unvalidated {dbs : List Server} {nshards : Int} {gen0 : Option IdGen}
    {cl : Cluster} (h : NewClusterWithGen dbs nshards gen0 = some cl)
    (number size : Int) (hsz : size ≤ 0) :
    cl.SubClusterOp number size = none := by
  have hclamp : clampSize cl size = size := by
    unfold clampSize
    rw [if_neg (not_lt.mpr (le_trans hsz (Int.ofNat_nonneg _)))]
  unfold Cluster.SubClusterOp
  rw [hclamp, if_pos hsz]

/-- Witness for C10: on the concrete 4-shard cluster, `SubCluster(1, 0)`
panics (division by zero), modelled as `none`. -/
theorem claim_C10_size_unvalidated_witness :
    NewClusterWithGen exDbs 4 none = some exCluster ∧ (0 : Int) ≤ 0 ∧
    exCluster.SubClusterOp 1 0 = none :=
  ⟨exCluster_eq, by decide, claim_C10_size_unvalidated exCluster_eq 1 0 (by decide)⟩

/-! ### Claim C6: ForEachDB invokes fn once per distinct server -/

/-- Membership in the deduplication fold: an element is in the result iff it
is in the accumulator or in the remaining list. -/
theorem mem_foldl_addDistinct (l : List Server) (acc : List Server) (s : Server) :
    s ∈ l.foldl addDistinct acc ↔ s ∈ acc ∨ s ∈ l := by
  induction l generalizing acc with
  | nil => simp
  | cons a l ih =>
    rw [List.foldl_cons, ih]
    unfold addDistinct
    split_ifs with ha
    · constructor
      · rintro (hs | hs)
        · exact Or.inl hs
        · exact Or.inr (List.mem_cons_of_mem a hs)
      · rintro (hs | hs)
        · exact Or.inl hs
        · rcases List.mem_cons.mp hs with rfl | hs
          · exact Or.inl ha
          · exact Or.inr hs
    · simp only [List.mem_append, List.mem_singleton, List.mem_cons]
      tauto

/-- The deduplication fold preserves the no-duplicates invariant of its
accumulator. -/
theorem nodup_foldl_addDistinct (l : List Server) (acc : List Server) (hacc : acc.Nodup) :
    (l.foldl addDistinct acc).Nodup := by
  induction l generalizing acc with
  | nil => exact hacc
  | cons a l ih =>
    rw [List.foldl_cons]
    apply ih
    unfold addDistinct
    split_ifs with ha
    · exact hacc
    · exact List.Nodup.append hacc (List.nodup_singleton a) (by simpa using ha)

/-- The distinct-server list contains exactly the servers of the placement
list. -/
theorem dedupServers_mem (dbs : List Server) (s : Server) :
    s ∈ dedupServers dbs ↔ s ∈ dbs := by
  unfold dedupServers
  rw [mem_foldl_addDistinct]
  simp

/-- The distinct-server list has no duplicates. -/
theorem dedupServers_nodup (dbs : List Server) : (dedupServers dbs).Nodup :=
  nodup_foldl_addDistinct dbs [] List.nodup_nil

/-- C6: for every constructed cluster, `ForEachDB` invokes `fn` exactly once
per distinct server (deduplicated by handle identity) even when the
placement list contains duplicate handles: its invocation sequence has no
repeated server and covers precisely the servers occurring in the placement
list. -/
theorem claim_C6_foreachdb_distinct {dbs : List Server} {nshards : Int} {gen0 : Option IdGen}
    {cl : Cluster} (h : NewClusterWithGen dbs nshards gen0 = some cl) :
    cl.forEachDBCalls.Nodup ∧ ∀ s : Server, s ∈ cl.forEachDBCalls ↔ s ∈ cl.dbs := by
  obtain ⟨-, hsrv, hdbs, -, -, -, -⟩ := NewClusterWithGen_some h
  constructor
  · rw [Cluster.forEachDBCalls, hsrv]
    exact dedupServers_nodup dbs
  · intro s
    rw [Cluster.forEachDBCalls, hsrv, hdbs]
    exact dedupServers_mem dbs s

/-- Witness for C6 on the duplicate placement list `[A, A, B, B]` with 4
shards: `fn` is invoked exactly twice, once for `A` and once for `B`. -/
theorem claim_C6_foreachdb_distinct_witness :
    NewClusterWithGen exDupDbs 4 none = some exDupCluster ∧
    (exDupCluster.forEachDBCalls.Nodup ∧
      ∀ s : Server, s ∈ exDupCluster.forEachDBCalls ↔ s ∈ exDupCluster.dbs) ∧
    exDupCluster.forEachDBCalls = [0, 1] :=
  ⟨exDupCluster_eq, claim_C6_foreachdb_distinct exDupCluster_eq, by decide⟩

/-! ### Claim C7: ForEachShard invokes fn once per shard, in order -/

/-- The shard list produced at construction is strictly increasing in shard
id. -/
theorem initShards_pairwise (gen : IdGen) (dbs : List Server) (n : Nat) :
    (initShards gen dbs n).Pairwise fun a b => a.shardId < b.shardId := by
  unfold initShards
  refine List.Pairwise.map _ (fun a b hab => ?_) (List.pairwise_lt_range n)
  show Int.ofNat a < Int.ofNat b
  exact Int.ofNat_lt.mpr hab

/-- The shard list produced at construction has no duplicate handles. -/
theorem initShards_nodup (gen : IdGen) (dbs : List Server) (n : Nat) :
    (initShards gen dbs n).Nodup :=
  (initShards_pairwise gen dbs n).imp fun hab => by
    intro hEq
    rw [hEq] at hab
    exact lt_irrefl _ hab

/-- Every constructed shard is bound to a server of the placement list. -/
theorem initShards_server_mem (gen : IdGen) (dbs : List Server) (n : Nat)
    (hdbs : 0 < dbs.length) :
    ∀ sh ∈ initShards gen dbs n, sh.server ∈ dbs := by
  intro sh hsh
  unfold initShards at hsh
  rw [List.mem_map] at hsh
  obtain ⟨i, -, rfl⟩ := hsh
  show dbs.getD (i % dbs.length) 0 ∈ dbs
  have hlt : i % dbs.length < dbs.length := Nat.mod_lt _ hdbs
  rw [List.getD_eq_getElem?_getD, List.getElem?_eq_getElem hlt]
  exact List.getElem_mem hlt

/-- The instrumented inner loop of `ForEachShard` invokes `fn` exactly on
the shards bound to `db`, in list order, whatever the error accumulator. -/
theorem fesLoop_calls {ε : Type} (fn : ShardDB → Option ε) (db : Server) (l : List ShardDB)
    (acc : Option ε) :
    (fesLoop fn db l acc).1 = l.filter fun sh => sh.server == db := by
  induction l generalizing acc with
  | nil => rfl
  | cons sh rest ih =>
    unfold fesLoop
    by_cases hs : sh.server = db
    · rw [if_pos hs, List.filter_cons_of_pos (by simpa using hs)]
      simp only [ih]
    · rw [if_neg hs, List.filter_cons_of_neg (by simpa using hs)]
      exact ih _

/-- C7: for every constructed cluster, `ForEachShard` invokes `fn` exactly
once per shard over all shards, and for the shards bound to any single
server the invocations occur in strictly ascending shard-index order.  The
first conjunct identifies the per-server invocation sequence of the
instrumented loop with the bound-shard sublist; the second states that the
invocation sequences over all servers cover every shard exactly once
(no shard repeated, none missed); the third gives the strict ordering. -/
theorem claim_C7_foreachshard_once_ordered {dbs : List Server} {nshards : Int}
    {gen0 : Option IdGen} {cl : Cluster} (h : NewClusterWithGen dbs nshards gen0 = some cl) :
    (∀ (ε : Type) (fn : ShardDB → Option ε) (db : Server),
        (cl.forEachShardBody fn db).1 = cl.forEachShardCalls db) ∧
    ((cl.servers.map cl.forEachShardCalls).flatten.Nodup ∧
      ∀ sh : ShardDB, sh ∈ (cl.servers.map cl.forEachShardCalls).flatten ↔ sh ∈ cl.shards) ∧
    (∀ db : Server, (cl.forEachShardCalls db).Pairwise fun a b => a.shardId < b.shardId) := by
  obtain ⟨-, hsrv, hdbs, hsh, hdbpos, -, -⟩ := NewClusterWithGen_some h
  have hnodup : cl.shards.Nodup := by rw [hsh]; exact initShards_nodup _ _ _
  have hpair : cl.shards.Pairwise fun a b => a.shardId < b.shardId := by
    rw [hsh]; exact initShards_pairwise _ _ _
  have hservers_nodup : cl.servers.Nodup := by rw [hsrv]; exact dedupServers_nodup dbs
  have hserver_mem : ∀ sh ∈ cl.shards, sh.server ∈ cl.servers := by
    intro sh hmem
    rw [hsrv, dedupServers_mem]
    rw [hsh] at hmem
    exact initShards_server_mem _ _ _ hdbpos sh hmem
  refine ⟨?_, ⟨?_, ?_⟩, ?_⟩
  · intro ε fn db
    exact fesLoop_calls fn db cl.shards none
  · rw [List.nodup_flatten]
    constructor
    · intro l hl
      rw [List.mem_map] at hl
      obtain ⟨db, -, rfl⟩ := hl
      exact List.Nodup.filter _ hnodup
    · rw [List.pairwise_map]
      refine hservers_nodup.imp ?_
      intro a b hab
      intro sh hsha hshb
      rw [Cluster.forEachShardCalls, List.mem_filter] at hsha hshb
      exact hab (by
        have h1 := of_decide_eq_true (by simpa using hsha.2)
        have h2 := of_decide_eq_true (by simpa using hshb.2)
        rw [← h1, ← h2])
  · intro sh
    rw [List.mem_flatten]
    constructor
    · rintro ⟨l, hl, hmem⟩
      rw [List.mem_map] at hl
      obtain ⟨db, -, rfl⟩ := hl
      rw [Cluster.forEachShardCalls, List.mem_filter] at hmem
      exact hmem.1
    · intro hmem
      refine ⟨cl.forEachShardCalls sh.server, ?_, ?_⟩
      · exact List.mem_map_of_mem _ (hserver_mem sh hmem)
      · rw [Cluster.forEachShardCalls, List.mem_filter]
        exact ⟨hmem, by simp⟩
  · intro db
    exact hpair.filter _

/-- Witness for C7 on the duplicate placement list: the per-server
invocation sequences are `[shard 0, shard 1]` for `A` and
`[shard 2, shard 3]` for `B` — every shard exactly once, in ascending
order within each server. -/
theorem claim_C7_foreachshard_once_ordered_witness :
    NewClusterWithGen exDupDbs 4 none = some exDupCluster ∧
    ((∀ (ε : Type) (fn : ShardDB → Option ε) (db : Server),
        (exDupCluster.forEachShardBody fn db).1 = exDupCluster.forEachShardCalls db) ∧
      ((exDupCluster.servers.map exDupCluster.forEachShardCalls).flatten.Nodup ∧
        ∀ sh : ShardDB,
          sh ∈ (exDupCluster.servers.map exDupCluster.forEachShardCalls).flatten ↔
            sh ∈ exDupCluster.shards) ∧
      ∀ db : Server, (exDupCluster.forEachShardCalls db).Pairwise fun a b =>
        a.shardId < b.shardId) ∧
    (exDupCluster.servers.map fun db =>
        (exDupCluster.forEachShardCalls db).map ShardDB.shardId) = [[0, 1], [2, 3]] :=
  ⟨exDupCluster_eq, claim_C7_foreachshard_once_ordered exDupCluster_eq, by decide⟩

/-! ### Claim C8: ForEachNShards at n = 1 agrees with ForEachShard -/

/-- The head of the list view of an optional value is the value itself. -/
theorem toList_head? {ε : Type} (o : Option ε) : o.toList.head? = o := by
  cases o <;> rfl

/-- The `n = 1` loop of `ForEachNShards`, run on the list view of the error
accumulator, produces the same invocation sequence and the same retained
error as the `ForEachShard` loop: a capacity-1 channel filled by sequential
non-blocking sends retains exactly the first non-nil error. -/
theorem fensOneLoop_eq_fesLoop {ε : Type} (fn : ShardDB → Option ε) (db : Server)
    (l : List ShardDB) (acc : Option ε) :
    fensOneLoop fn db l acc.toList =
      ((fesLoop fn db l acc).1, (fesLoop fn db l acc).2.toList) := by
  induction l generalizing acc with
  | nil => rfl
  | cons sh rest ih =>
    unfold fensOneLoop fesLoop
    by_cases hs : sh.server = db
    · rw [if_pos hs, if_pos hs]
      have hch : (match fn sh with
          | some e => chanSend 1 acc.toList e
          | none => acc.toList) =
          (match fn sh, acc with
          | some e, none => some e
          | _, _ => acc).toList := by
        cases fn sh with
        | none => cases acc <;> rfl
        | some e => cases acc <;> rfl
      show (sh :: (fensOneLoop fn db rest _).1, (fensOneLoop fn db rest _).2) = _
      rw [hch, ih]
    · rw [if_neg hs, if_neg hs]
      exact ih acc

/-- C8: for every constructed cluster, the per-server body that
`ForEachNShards(1, fn)` hands to `ForEachDB` produces exactly the results
of the body `ForEachShard(fn)` hands to it: the same invocation sequence
and the same per-server first-error capture.  Since both operations wrap
these bodies in the identical `ForEachDB` fan-out over the same server
list, the two calls produce identical outcomes. -/
theorem claim_C8_foreachnshards_one {dbs : List Server} {nshards : Int} {gen0 : Option IdGen}
    {cl : Cluster} (h : NewClusterWithGen dbs nshards gen0 = some cl)
    (ε : Type) (fn : ShardDB → Option ε) (db : Server) :
    cl.forEachShardBody fn db = cl.forEachNShardsOneBody fn db := by
  unfold Cluster.forEachShardBody Cluster.forEachNShardsOneBody
  have hloop := fensOneLoop_eq_fesLoop fn db cl.shards (none : Option ε)
  rw [show ((none : Option ε).toList) = [] from rfl] at hloop
  rw [hloop]
  show fesLoop fn db cl.shards none =
    ((fesLoop fn db cl.shards none).1, (fesLoop fn db cl.shards none).2.toList.head?)
  rw [toList_head?]

/-- Witness for C8 on the concrete cluster, with the failing operation
`exShardFn` and server `A`: both bodies invoke `fn` on shards 0 and 2 and
both capture the error from shard 0. -/
theorem claim_C8_foreachnshards_one_witness :
    NewClusterWithGen exDbs 4 none = some exCluster ∧
    exCluster.forEachShardBody exShardFn 0 = exCluster.forEachNShardsOneBody exShardFn 0 ∧
    (exCluster.forEachShardBody exShardFn 0).2 = some 7 :=
  ⟨exCluster_eq, claim_C8_foreachnshards_one exCluster_eq Nat exShardFn 0, by decide⟩

/-! ### Claim C9: Close closes each distinct server once, no short-circuit -/

/-- The close loop visits every server in order regardless of errors, and
returns the accumulated error if one was already recorded, otherwise the
first error produced along the list. -/
theorem closeLoop_run {ε : Type} (closeFn : Server → Option ε) (l : List Server)
    (acc : Option ε) :
    (closeLoop closeFn l acc).1 = l ∧
      (closeLoop closeFn l acc).2 =
        (match acc with
         | some e => some e
         | none => l.findSome? closeFn) := by
  induction l generalizing acc with
  | nil => cases acc <;> exact ⟨rfl, rfl⟩
  | cons db rest ih =>
    unfold closeLoop
    cases acc with
    | some e0 =>
      cases hdb : closeFn db with
      | some e =>
        constructor
        · show db :: (closeLoop closeFn rest (some e0)).1 = db :: rest
          rw [(ih (some e0)).1]
        · show (closeLoop closeFn rest (some e0)).2 = some e0
          rw [(ih (some e0)).2]
      | none =>
        constructor
        · show db :: (closeLoop closeFn rest (some e0)).1 = db :: rest
          rw [(ih (some e0)).1]
        · show (closeLoop closeFn rest (some e0)).2 = some e0
          rw [(ih (some e0)).2]
    | none =>
      cases hdb : closeFn db with
      | some e =>
        constructor
        · show db :: (closeLoop closeFn rest (some e)).1 = db :: rest
          rw [(ih (some e)).1]
        · show (closeLoop closeFn rest (some e)).2 = List.findSome? closeFn (db :: rest)
          rw [(ih (some e)).2, List.findSome?_cons, hdb]
      | none =>
        constructor
        · show db :: (closeLoop closeFn rest none).1 = db :: rest
          rw [(ih none).1]
        · show (closeLoop closeFn rest none).2 = List.findSome? closeFn (db :: rest)
          rw [(ih none).2, List.findSome?_cons, hdb]

/-- C9: for every constructed cluster, `Close` calls `Close` exactly once on
each distinct server — the closed sequence is the deduplicated server list,
not one entry per shard — attempts every close even after one fails (the
loop never breaks), and returns the first close error in server order
(`findSome?`), or none when every close succeeds. -/
theorem claim_C9_close_once {dbs : List Server} {nshards : Int} {gen0 : Option IdGen}
    {cl : Cluster} (h : NewClusterWithGen dbs nshards gen0 = some cl)
    (ε : Type) (closeFn : Server → Option ε) :
    (cl.CloseRun closeFn).1 = cl.servers ∧ cl.servers.Nodup ∧
      (∀ s : Server, s ∈ cl.servers ↔ s ∈ cl.dbs) ∧
      (cl.CloseRun closeFn).2 = cl.servers.findSome? closeFn := by
  obtain ⟨-, hsrv, hdbs, -, -, -, -⟩ := NewClusterWithGen_some h
  obtain ⟨h1, h2⟩ := closeLoop_run closeFn cl.servers none
  refine ⟨h1, ?_, ?_, h2⟩
  · rw [hsrv]
    exact dedupServers_nodup dbs
  · intro s
    rw [hsrv, hdbs]
    exact dedupServers_mem dbs s

/-- Witness for C9 on the duplicate placement list `[A, A, B, B]` with the
all-failing close operation: both distinct servers are closed exactly once
(`[A, B]`, not four closes) and the returned error is `A`'s, the first in
server order, even though `B`'s close also failed. -/
theorem claim_C9_close_once_witness :
    NewClusterWithGen exDupDbs 4 none = some exDupCluster ∧
    ((exDupCluster.CloseRun exCloseFn).1 = exDupCluster.servers ∧
      exDupCluster.servers.Nodup ∧
      (∀ s : Server, s ∈ exDupCluster.servers ↔ s ∈ exDupCluster.dbs) ∧
      (exDupCluster.CloseRun exCloseFn).2 = exDupCluster.servers.findSome? exCloseFn) ∧
    exDupCluster.CloseRun exCloseFn = ([0, 1], some 10) :=
  ⟨exDupCluster_eq, claim_C9_close_once exDupCluster_eq Nat exCloseFn, by decide⟩
